import Mathlib

/-!
Verification development for the validation and error-normalization core of a
schema-driven form library (`validateFormData`, `toErrorList`,
`filterEmptyValues`).  The repository ships the test suite for these functions;
the implementation module itself is not part of the sources, so the definitions
below are modelled from the specification document, pinned wherever possible by
the behavior the test suite demands.
-/

set_option autoImplicit false

namespace Validate

/-- JSON-like runtime values, including the JavaScript `undefined` marker,
which the validation pipeline treats specially (absent/undefined properties are
not validated). -/
inductive JVal where
  | undef
  | null
  | bool (b : Bool)
  | num (n : Int)
  | str (s : String)
  | arr (items : List JVal)
  | obj (fields : List (String × JVal))

/-- Modelled from the spec: a JSON-Schema-compatible document restricted to the
keywords the core consults: `type`, `properties`, `required`, `items` and the
scalar constraint `minLength` (spec section 3, "Schema").  An absent
`properties` keyword is represented by the empty list, matching how the filter
and validator only ever test for a usable, non-trivial `properties` mapping. -/
inductive JSchema where
  | mk (ty : Option String) (required : List String)
       (properties : List (String × JSchema))
       (items : Option JSchema)
       (minLength : Option Nat)
deriving Repr

/-- The `type` keyword of a schema. -/
def JSchema.ty : JSchema → Option String
  | .mk t _ _ _ _ => t

/-- The `required` keyword of a schema (empty when absent). -/
def JSchema.required : JSchema → List String
  | .mk _ r _ _ _ => r

/-- The `properties` keyword of a schema (empty when absent). -/
def JSchema.properties : JSchema → List (String × JSchema)
  | .mk _ _ p _ _ => p

/-- The `items` keyword of a schema. -/
def JSchema.items : JSchema → Option JSchema
  | .mk _ _ _ i _ => i

/-- The `minLength` keyword of a schema. -/
def JSchema.minLength : JSchema → Option Nat
  | .mk _ _ _ _ m => m

/-- First-match association-list lookup, the model of JavaScript property
access `o[key]` on the objects the core manipulates. -/
def alook {α : Type} : List (String × α) → String → Option α
  | [], _ => none
  | (k, v) :: rest, key => if k = key then some v else alook rest key

/-- Modelled from the spec: the top-level emptiness test of the Empty-Value
Filter (spec section 4.6, "apply only the top-level emptiness test"): a value
is empty when it is `undefined`, `null`, or the empty string.  Objects and
arrays are never empty under this shallow test; the repository's test suite
pins this down (an empty array value is retained, and an object whose only
field is an empty-but-required string is retained). -/
def isEmptyVal : JVal → Bool
  | .undef => true
  | .null => true
  | .str s => s = ""
  | _ => false

mutual

/-- Modelled from the spec: `filterEmptyValues(data, schema)` (spec section
4.6).  Walks the keys of `data` in order; a key whose value is an object and
whose sub-schema carries a `properties` mapping is recursed into (and always
retained, holding the filtered sub-object); any other key is retained exactly
when it is listed in the schema's `required` sequence at this level or its
value is not empty.  Non-object inputs yield the empty object.  The input is
never mutated; a new structure is returned. -/
def filterEmptyValues : JVal → JSchema → JVal
  | .obj fields, schema => .obj (filterFields fields schema)
  | _, _ => .obj []
termination_by structural data _ => data

/-- Per-key worker of `filterEmptyValues`, walking the data object's own
fields in insertion order. -/
def filterFields : List (String × JVal) → JSchema → List (String × JVal)
  | [], _ => []
  | (k, v) :: rest, schema =>
      match alook (JSchema.properties schema) k, v with
      | some sub, .obj _ =>
          if (JSchema.properties sub).isEmpty then
            if k ∈ JSchema.required schema ∨ ¬ isEmptyVal v then
              (k, v) :: filterFields rest schema
            else
              filterFields rest schema
          else
            (k, filterEmptyValues v sub) :: filterFields rest schema
      | _, _ =>
          if k ∈ JSchema.required schema ∨ ¬ isEmptyVal v then
            (k, v) :: filterFields rest schema
          else
            filterFields rest schema
termination_by structural fields _ => fields

end

/-- Modelled from the spec: an ErrorNode (spec section 3): a recursive mapping
from keys to child ErrorNodes together with the reserved `__errors` key holding
the ordered list of messages attached directly at this path.  The reserved key
is modelled as the dedicated `errors` field; every node carries it, defaulting
to the empty list. -/
inductive ErrorNode where
  | mk (errors : List String) (children : List (String × ErrorNode))

/-- Message list attached directly at a node (the `__errors` entry). -/
def ErrorNode.errors : ErrorNode → List String
  | .mk e _ => e

/-- Child mapping of a node (every key except the reserved `__errors`). -/
def ErrorNode.children : ErrorNode → List (String × ErrorNode)
  | .mk _ c => c

/-- Node reached by following a path of keys from `t`, if every segment is
present. -/
def getNode? : ErrorNode → List String → Option ErrorNode
  | t, [] => some t
  | .mk _ childs, k :: rest =>
      match alook childs k with
      | some c => getNode? c rest
      | none => none

/-- Messages attached at a path, defaulting to the empty list when the path is
absent from the tree. -/
def errsAt (t : ErrorNode) (p : List String) : List String :=
  match getNode? t p with
  | some n => ErrorNode.errors n
  | none => []

/-- Replace the value stored under the first occurrence of a key in an
association list. -/
def setKey {α : Type} : List (String × α) → String → α → List (String × α)
  | [], _, _ => []
  | (k, v) :: rest, key, nv =>
      if k = key then (key, nv) :: rest else (k, v) :: setKey rest key nv

/-- Modelled from the spec: the `addError` mutation of the Error Accumulator
(spec sections 4.2 and 4.3): walk the path from the root, lazily creating an
empty node for any missing segment (segments are opaque mapping keys, never
parsed), and append the message at the end of the terminal node's reserved
message list.  Freshly created keys are appended after the existing children,
matching JavaScript property insertion order. -/
def addError : ErrorNode → List String → String → ErrorNode
  | .mk errs childs, [], msg => .mk (errs ++ [msg]) childs
  | .mk errs childs, k :: rest, msg =>
      match alook childs k with
      | some c => .mk errs (setKey childs k (addError c rest msg))
      | none => .mk errs (childs ++ [(k, addError (.mk [] []) rest msg)])

/-- Attach a list of (path, message) pairs in order via `addError`. -/
def applyAdds : ErrorNode → List (List String × String) → ErrorNode
  | t, [] => t
  | t, (p, m) :: rest => applyAdds (addError t p m) rest

mutual

/-- Modelled from the spec: the empty skeleton tree mirroring the data's shape
(spec sections 6 and 8: the error tree is keyed identically to the data's
shape, with an empty reserved message list at the root and at every key
present in the data, array indices included). -/
def skeleton : JVal → ErrorNode
  | .obj fields => .mk [] (skelFields fields)
  | .arr xs => .mk [] (skelItems 0 xs)
  | _ => .mk [] []
termination_by structural v => v

/-- Skeleton children of an object's fields. -/
def skelFields : List (String × JVal) → List (String × ErrorNode)
  | [] => []
  | (k, v) :: rest => (k, skeleton v) :: skelFields rest
termination_by structural fields => fields

/-- Skeleton children of an array's elements, keyed by decimal index. -/
def skelItems : Nat → List JVal → List (String × ErrorNode)
  | _, [] => []
  | i, x :: xs => (toString i, skeleton x) :: skelItems (i + 1) xs
termination_by structural _ xs => xs

end

/-- Keyed child values of a data value: an object's own fields, an array's
elements keyed by decimal index, nothing for scalars. -/
def enumItems : Nat → List JVal → List (String × JVal)
  | _, [] => []
  | i, x :: xs => (toString i, x) :: enumItems (i + 1) xs

/-- Own enumerable fields of a value, as JavaScript enumerates them. -/
def jfields : JVal → List (String × JVal)
  | .obj fields => fields
  | .arr xs => enumItems 0 xs
  | _ => []

/-- Presence of a path in a data value: every segment names an existing field
(or array index) of the value reached so far. -/
def hasPath : JVal → List String → Bool
  | _, [] => true
  | v, k :: rest =>
      match alook (jfields v) k with
      | some c => hasPath c rest
      | none => false

/-- Flat single-line error record produced by the flattening utility. -/
structure FlatErrorEntry where
  stack : String
deriving Repr, DecidableEq

mutual

/-- Modelled from the spec: the flattening traversal underlying `toErrorList`
(spec section 3, FlatErrorEntry): at each node, first emit one entry per
message in the node's reserved list labelled with the node's own label, then
recurse into the children in order, each child labelled by its own key. -/
def toErrorListFrom : ErrorNode → String → List FlatErrorEntry
  | .mk errs childs, label =>
      errs.map (fun m => ⟨label ++ ": " ++ m⟩) ++ toErrorListChildren childs
termination_by structural t _ => t

/-- Child traversal of `toErrorListFrom`. -/
def toErrorListChildren : List (String × ErrorNode) → List FlatErrorEntry
  | [] => []
  | (k, c) :: rest => toErrorListFrom c k ++ toErrorListChildren rest
termination_by structural childs => childs

end

/-- Modelled from the spec: `toErrorList(errorSchema)` (spec section 6): the
pure flattening utility; the root node's label is the literal string
"root". -/
def toErrorList (t : ErrorNode) : List FlatErrorEntry :=
  toErrorListFrom t "root"

/-- Modelled from the spec: a RawValidationError (spec section 3) restricted
to the fields the pipeline consumes: the human-readable message and the path
of raw segments (not a pre-joined string). -/
structure RawValidationError where
  message : String
  path : List String
deriving Repr, DecidableEq

/-- Match of a value against a `type` keyword string. -/
def typeMatches : JVal → String → Bool
  | .str _, "string" => true
  | .num _, "number" => true
  | .num _, "integer" => true
  | .bool _, "boolean" => true
  | .obj _, "object" => true
  | .arr _, "array" => true
  | .null, "null" => true
  | _, _ => false

/-- Recognize the `undefined` marker. -/
def isUndef : JVal → Bool
  | .undef => true
  | _ => false

/-- Type-keyword errors at a node: undefined values are not validated, and a
defined value of the wrong type yields the underlying validator's message
"is not of a type(s) T". -/
def typeErrs (path : List String) (v : JVal) : Option String → List RawValidationError
  | none => []
  | some t =>
      if isUndef v then []
      else if typeMatches v t then []
      else [⟨"is not of a type(s) " ++ t, path⟩]

/-- MinLength errors for a string value, message
"does not meet minimum length of N". -/
def minLenErrs (path : List String) (s : String) : Option Nat → List RawValidationError
  | none => []
  | some n => if s.length < n then [⟨"does not meet minimum length of " ++ toString n, path⟩] else []

/-- Required-property errors of an object: one error per name in the
`required` sequence, in sequence order, whose field is absent or undefined;
the message is the underlying validator's
"requires property \"name\"", attached at the object's own path. -/
def requiredErrs (path : List String) (fields : List (String × JVal)) : List String → List RawValidationError
  | [] => []
  | k :: rest =>
      (match alook fields k with
       | some v => if isUndef v then [⟨"requires property \"" ++ k ++ "\"", path⟩] else []
       | none => [⟨"requires property \"" ++ k ++ "\"", path⟩])
      ++ requiredErrs path fields rest

mutual

/-- Modelled from the spec: the Schema Validator Adapter (spec section 4.1),
mirroring the underlying JSON-Schema validation algorithm on the keywords the
repository's tests exercise: `type`, `minLength`, `required`, `properties` (in
declaration order, depth-first) and `items` (per element, keyed by decimal
index).  Every error carries its raw path segments.  Undefined property
values are skipped. -/
def validateAt (path : List String) (v : JVal) (s : JSchema) : List RawValidationError :=
  match s with
  | .mk ty req props items minL =>
      typeErrs path v ty
      ++ (match v with
          | .str str => minLenErrs path str minL
          | .obj fields => requiredErrs path fields req ++ validateProps path fields props
          | .arr xs =>
              (match items with
               | some isub =>
                   ((enumItems 0 xs).map (fun p => validateAt (path ++ [p.1]) p.2 isub)).flatten
               | none => [])
          | _ => [])
termination_by structural s

/-- Validation of an object's declared properties, in declaration order. -/
def validateProps (path : List String) (fields : List (String × JVal)) :
    List (String × JSchema) → List RawValidationError
  | [] => []
  | (k, sub) :: rest =>
      (match alook fields k with
       | some v => if isUndef v then [] else validateAt (path ++ [k]) v sub
       | none => [])
      ++ validateProps path fields rest
termination_by structural props => props

end

/-- Raw schema validation of (data, schema) from the root. -/
def validate (data : JVal) (schema : JSchema) : List RawValidationError :=
  validateAt [] data schema

/-- Error record of the returned flat `errors` list.  Entries derived from raw
validator errors keep their `message`; entries re-derived from the error tree
by flattening only carry a `stack` line (message absent), as the test suite's
deep-equality expectations pin down. -/
structure ErrEntry where
  message : Option String
  stack : String
deriving Repr, DecidableEq

/-- Human-readable stack line of a raw validator error, in the underlying
library's "instance...: message" shape. -/
def rawStack (e : RawValidationError) : String :=
  (match e.path with
   | [] => "instance"
   | _ => "instance." ++ String.intercalate "." e.path) ++ ": " ++ e.message

/-- Lift of a raw validator error into the returned flat list. -/
def rawToEntry (e : RawValidationError) : ErrEntry :=
  ⟨some e.message, rawStack e⟩

/-- Lift of a flattened tree entry into the returned flat list. -/
def flatToEntry (e : FlatErrorEntry) : ErrEntry :=
  ⟨none, e.stack⟩

/-- Optional transform hook application (spec section 4.5): when absent the
flat list passes through unchanged. -/
def applyTransform : Option (List ErrEntry → List ErrEntry) → List ErrEntry → List ErrEntry
  | none, l => l
  | some f, l => f l

/-- Result of a validation call: the flat error list and the error tree. -/
structure ValidationResult where
  errors : List ErrEntry
  errorSchema : ErrorNode

/-- Error tree produced by schema validation alone: the data-shaped skeleton
with every raw error's message appended at its path. -/
def schemaErrorTree (data : JVal) (schema : JSchema) : ErrorNode :=
  applyAdds (skeleton data) ((validate data schema).map (fun e => (e.path, e.message)))

/-- Modelled from the spec: the top-level entry point
`validateFormData(data, schema, customValidateFn?, transformErrorsFn?)`
(spec sections 2 and 6).  The custom validation function is modelled by the
ordered list of (path, message) additions it performs through the append-only
Error Accumulator; its additions are appended after the schema-produced
messages.  With no custom function the flat list is the raw validator output;
with one it is re-derived from the final merged tree by flattening.  The
optional transform rewrites the flat list only, never the tree. -/
def validateFormData (data : JVal) (schema : JSchema)
    (customValidate : Option (JVal → List (List String × String)))
    (transformErrors : Option (List ErrEntry → List ErrEntry)) : ValidationResult :=
  let raw := validate data schema
  let tree := schemaErrorTree data schema
  match customValidate with
  | none => ⟨applyTransform transformErrors (raw.map rawToEntry), tree⟩
  | some f =>
      let tree2 := applyAdds tree (f data)
      ⟨applyTransform transformErrors ((toErrorList tree2).map flatToEntry), tree2⟩

/-- Modelled from the spec: the same entry point with a custom validation
function that may throw (spec sections 4.4 and 7): a throw is modelled by
`Except.error`; it is not caught, so the whole call aborts with the thrown
value and no partial result is produced. -/
def validateFormDataT (data : JVal) (schema : JSchema)
    (customValidate : JVal → Except String (List (List String × String)))
    (transformErrors : Option (List ErrEntry → List ErrEntry)) :
    Except String ValidationResult :=
  match customValidate data with
  | .error e => .error e
  | .ok adds => .ok (validateFormData data schema (some (fun _ => adds)) transformErrors)

/-! ### Association-list lemmas -/

theorem alook_append {α : Type} (l₁ l₂ : List (String × α)) (key : String) :
    alook (l₁ ++ l₂) key =
      (match alook l₁ key with
       | some v => some v
       | none => alook l₂ key) := by
  induction l₁ with
  | nil => simp [alook]
  | cons hd tl ih =>
      obtain ⟨k, v⟩ := hd
      by_cases h : k = key <;> simp [alook, h, ih]

theorem alook_setKey {α : Type} (l : List (String × α)) (k : String) (nv : α) (key : String) :
    alook (setKey l k nv) key =
      if key = k then (alook l k).map (fun _ => nv) else alook l key := by
  induction l with
  | nil => simp [alook, setKey]
  | cons hd tl ih =>
      obtain ⟨k', v'⟩ := hd
      by_cases h1 : k' = k
      · subst h1
        by_cases h2 : key = k'
        · subst h2
          simp [alook, setKey]
        · simp [alook, setKey, h2, Ne.symm h2]
      · by_cases h2 : k' = key
        · subst h2
          simp [alook, setKey, h1, ih, Ne.symm h1]
        · simp [alook, setKey, h1, h2, ih]

theorem alook_map {α β : Type} (f : α → β) (l : List (String × α)) (key : String) :
    alook (l.map (fun p => (p.1, f p.2))) key = (alook l key).map f := by
  induction l with
  | nil => simp [alook]
  | cons hd tl ih =>
      obtain ⟨k, v⟩ := hd
      by_cases h : k = key <;> simp [alook, h, ih]

/-! ### errsAt / getNode? unfolding lemmas -/

theorem errors_mk (e : List String) (c : List (String × ErrorNode)) :
    ErrorNode.errors (.mk e c) = e := rfl

theorem children_mk (e : List String) (c : List (String × ErrorNode)) :
    ErrorNode.children (.mk e c) = c := rfl

theorem errsAt_nil (t : ErrorNode) : errsAt t [] = ErrorNode.errors t := by
  obtain ⟨e, c⟩ := t
  rfl

theorem errsAt_cons_some (e : List String) (cs : List (String × ErrorNode))
    (k : String) (rest : List String) (c : ErrorNode) (h : alook cs k = some c) :
    errsAt (.mk e cs) (k :: rest) = errsAt c rest := by
  simp [errsAt, getNode?, h]

theorem errsAt_cons_none (e : List String) (cs : List (String × ErrorNode))
    (k : String) (rest : List String) (h : alook cs k = none) :
    errsAt (.mk e cs) (k :: rest) = [] := by
  simp [errsAt, getNode?, h]

theorem errsAt_emptyNode (p : List String) : errsAt (ErrorNode.mk [] []) p = [] := by
  cases p with
  | nil => rfl
  | cons k rest => exact errsAt_cons_none _ _ _ _ rfl

/-- Effect of `addError` on the message list at an arbitrary path: the message
is appended at exactly the target path and every other path is untouched. -/
theorem errsAt_addError (q : List String) (t : ErrorNode) (m : String) (p : List String) :
    errsAt (addError t q m) p = if p = q then errsAt t p ++ [m] else errsAt t p := by
  induction q generalizing t p with
  | nil =>
      obtain ⟨errs, childs⟩ := t
      cases p with
      | nil => simp [addError, errsAt_nil, errors_mk]
      | cons k rest =>
          cases h : alook childs k with
          | some c =>
              rw [show addError (.mk errs childs) [] m = .mk (errs ++ [m]) childs from rfl]
              rw [errsAt_cons_some _ _ _ _ _ h, errsAt_cons_some _ _ _ _ _ h]
              simp
          | none =>
              rw [show addError (.mk errs childs) [] m = .mk (errs ++ [m]) childs from rfl]
              rw [errsAt_cons_none _ _ _ _ h, errsAt_cons_none _ _ _ _ h]
              simp
  | cons k qrest ih =>
      obtain ⟨errs, childs⟩ := t
      cases h : alook childs k with
      | some c =>
          have haddeq : addError (.mk errs childs) (k :: qrest) m
              = .mk errs (setKey childs k (addError c qrest m)) := by
            simp [addError, h]
          cases p with
          | nil => rw [haddeq]; simp [errsAt_nil, errors_mk]
          | cons k' prest =>
              rw [haddeq]
              by_cases hk : k' = k
              · subst hk
                have h2 : alook (setKey childs k' (addError c qrest m)) k'
                    = some (addError c qrest m) := by
                  rw [alook_setKey, if_pos rfl, h]
                  rfl
                rw [errsAt_cons_some _ _ _ _ _ h2, errsAt_cons_some _ _ _ _ _ h, ih c prest]
                by_cases hpq : prest = qrest
                · simp [hpq]
                · simp [hpq]
              · have h2 : alook (setKey childs k (addError c qrest m)) k'
                    = alook childs k' := by
                  rw [alook_setKey, if_neg hk]
                have hne : (k' :: prest) ≠ (k :: qrest) := by simp [hk]
                rw [if_neg hne]
                cases h3 : alook childs k' with
                | some c' =>
                    rw [errsAt_cons_some _ _ _ _ _ (h2.trans h3), errsAt_cons_some _ _ _ _ _ h3]
                | none =>
                    rw [errsAt_cons_none _ _ _ _ (h2.trans h3), errsAt_cons_none _ _ _ _ h3]
      | none =>
          have haddeq : addError (.mk errs childs) (k :: qrest) m
              = .mk errs (childs ++ [(k, addError (.mk [] []) qrest m)]) := by
            simp [addError, h]
          cases p with
          | nil => rw [haddeq]; simp [errsAt_nil, errors_mk]
          | cons k' prest =>
              rw [haddeq]
              by_cases hk : k' = k
              · subst hk
                have h2 : alook (childs ++ [(k', addError (.mk [] []) qrest m)]) k'
                    = some (addError (.mk [] []) qrest m) := by
                  rw [alook_append, h]
                  simp [alook]
                rw [errsAt_cons_some _ _ _ _ _ h2, errsAt_cons_none _ _ _ _ h, ih]
                by_cases hpq : prest = qrest
                · simp [hpq, errsAt_emptyNode]
                · simp [hpq, errsAt_emptyNode]
              · have h2 : alook (childs ++ [(k, addError (.mk [] []) qrest m)]) k'
                    = alook childs k' := by
                  rw [alook_append]
                  cases h3 : alook childs k' with
                  | some c' => rfl
                  | none => simp [alook, Ne.symm hk]
                have hne : (k' :: prest) ≠ (k :: qrest) := by simp [hk]
                rw [if_neg hne]
                cases h3 : alook childs k' with
                | some c' =>
                    rw [errsAt_cons_some _ _ _ _ _ (h2.trans h3), errsAt_cons_some _ _ _ _ _ h3]
                | none =>
                    rw [errsAt_cons_none _ _ _ _ (h2.trans h3), errsAt_cons_none _ _ _ _ h3]

/-- `addError` never removes a path: any node reachable before the mutation is
still reachable after it. -/
theorem getNode?_addError_isSome (q : List String) (t : ErrorNode) (m : String)
    (p : List String) (h : (getNode? t p).isSome) :
    (getNode? (addError t q m) p).isSome := by
  induction q generalizing t p with
  | nil =>
      obtain ⟨errs, childs⟩ := t
      cases p with
      | nil => simp [getNode?]
      | cons k rest => simpa [addError, getNode?] using h
  | cons k qrest ih =>
      obtain ⟨errs, childs⟩ := t
      cases hl : alook childs k with
      | some c =>
          have haddeq : addError (.mk errs childs) (k :: qrest) m
              = .mk errs (setKey childs k (addError c qrest m)) := by
            simp [addError, hl]
          cases p with
          | nil => simp [haddeq, getNode?]
          | cons k' prest =>
              rw [haddeq]
              by_cases hk : k' = k
              · subst hk
                have h2 : alook (setKey childs k' (addError c qrest m)) k'
                    = some (addError c qrest m) := by
                  rw [alook_setKey, if_pos rfl, hl]
                  rfl
                simp only [getNode?, h2]
                simp only [getNode?, hl] at h
                exact ih c prest h
              · have h2 : alook (setKey childs k (addError c qrest m)) k'
                    = alook childs k' := by
                  rw [alook_setKey, if_neg hk]
                simp only [getNode?, h2]
                simpa [getNode?] using h
      | none =>
          have haddeq : addError (.mk errs childs) (k :: qrest) m
              = .mk errs (childs ++ [(k, addError (.mk [] []) qrest m)]) := by
            simp [addError, hl]
          cases p with
          | nil => simp [haddeq, getNode?]
          | cons k' prest =>
              rw [haddeq]
              cases h3 : alook childs k' with
              | some c' =>
                  have h2 : alook (childs ++ [(k, addError (.mk [] []) qrest m)]) k'
                      = some c' := by
                    rw [alook_append, h3]
                  simp only [getNode?, h2]
                  simpa [getNode?, h3] using h
              | none =>
                  simp [getNode?, h3] at h

/-- `applyAdds` never removes a path. -/
theorem getNode?_applyAdds_isSome (l : List (List String × String)) (t : ErrorNode)
    (p : List String) (h : (getNode? t p).isSome) :
    (getNode? (applyAdds t l) p).isSome := by
  induction l generalizing t with
  | nil => simpa [applyAdds] using h
  | cons hd tl ih =>
      obtain ⟨q, m⟩ := hd
      exact ih _ (getNode?_addError_isSome q t m p h)

/-- Messages a list of (path, message) additions attaches at a given path, in
list order. -/
def msgsAt (l : List (List String × String)) (p : List String) : List String :=
  l.filterMap (fun pr => if pr.1 = p then some pr.2 else none)

/-- Effect of a whole addition list on the message list at a path. -/
theorem errsAt_applyAdds (l : List (List String × String)) (t : ErrorNode) (p : List String) :
    errsAt (applyAdds t l) p = errsAt t p ++ msgsAt l p := by
  induction l generalizing t with
  | nil => simp [applyAdds, msgsAt]
  | cons hd tl ih =>
      obtain ⟨q, m⟩ := hd
      rw [show applyAdds t ((q, m) :: tl) = applyAdds (addError t q m) tl from rfl, ih,
        errsAt_addError]
      by_cases hpq : p = q
      · subst hpq
        simp [msgsAt]
      · simp [msgsAt, hpq, Ne.symm hpq, List.filterMap_cons]

/-! ### Skeleton lemmas -/

theorem skelFields_eq_map (fields : List (String × JVal)) :
    skelFields fields = fields.map (fun pr => (pr.1, skeleton pr.2)) := by
  induction fields with
  | nil => rfl
  | cons hd tl ih =>
      obtain ⟨k, v⟩ := hd
      simp [skelFields, ih]

theorem skelItems_eq_map (i : Nat) (xs : List JVal) :
    skelItems i xs = (enumItems i xs).map (fun pr => (pr.1, skeleton pr.2)) := by
  induction xs generalizing i with
  | nil => rfl
  | cons hd tl ih => simp [skelItems, enumItems, ih]

theorem skeleton_errors (v : JVal) : ErrorNode.errors (skeleton v) = [] := by
  cases v <;> rfl

theorem skeleton_children (v : JVal) :
    ErrorNode.children (skeleton v) = (jfields v).map (fun pr => (pr.1, skeleton pr.2)) := by
  cases v <;> simp [skeleton, jfields, children_mk, skelFields_eq_map, skelItems_eq_map]

/-- Every path present in the data is present in the data's skeleton tree. -/
theorem getNode?_skeleton_isSome (p : List String) (v : JVal) (h : hasPath v p = true) :
    (getNode? (skeleton v) p).isSome := by
  induction p generalizing v with
  | nil => simp [getNode?]
  | cons k rest ih =>
      rw [show skeleton v = .mk (ErrorNode.errors (skeleton v)) (ErrorNode.children (skeleton v))
            by (cases skeleton v; rfl)]
      rw [show ErrorNode.children (skeleton v) = (jfields v).map (fun pr => (pr.1, skeleton pr.2))
            from skeleton_children v]
      cases hl : alook (jfields v) k with
      | some c =>
          have h2 : alook ((jfields v).map (fun pr => (pr.1, skeleton pr.2))) k
              = some (skeleton c) := by
            rw [alook_map, hl]
            rfl
          simp only [getNode?, h2]
          simp only [hasPath, hl] at h
          exact ih c h
      | none => simp [hasPath, hl] at h

/-- Every node of the skeleton tree carries an empty message list. -/
theorem errsAt_skeleton (p : List String) (v : JVal) : errsAt (skeleton v) p = [] := by
  induction p generalizing v with
  | nil => simp [errsAt_nil, skeleton_errors]
  | cons k rest ih =>
      rw [show skeleton v = .mk (ErrorNode.errors (skeleton v)) (ErrorNode.children (skeleton v))
            by (cases skeleton v; rfl)]
      rw [show ErrorNode.children (skeleton v) = (jfields v).map (fun pr => (pr.1, skeleton pr.2))
            from skeleton_children v]
      cases hl : alook (jfields v) k with
      | some c =>
          have h2 : alook ((jfields v).map (fun pr => (pr.1, skeleton pr.2))) k
              = some (skeleton c) := by
            rw [alook_map, hl]
            rfl
          rw [errsAt_cons_some _ _ _ _ _ h2]
          exact ih c
      | none =>
          have h2 : alook ((jfields v).map (fun pr => (pr.1, skeleton pr.2))) k = none := by
            rw [alook_map, hl]
            rfl
          exact errsAt_cons_none _ _ _ _ h2

/-! ### Pipeline lemmas -/

theorem filterMap_ite_eq_filter_map {α β : Type} (q : α → Prop) [DecidablePred q]
    (f : α → β) (l : List α) :
    l.filterMap (fun a => if q a then some (f a) else none) = (l.filter (fun a => q a)).map f := by
  induction l with
  | nil => rfl
  | cons hd tl ih =>
      by_cases h : q hd <;> simp [List.filterMap_cons, List.filter_cons, h, ih]

/-- Messages the schema validator attaches at a given path, in validator
order. -/
def schemaMessagesAt (d : JVal) (s : JSchema) (p : List String) : List String :=
  ((validate d s).filter (fun e => e.path = p)).map (fun e => e.message)

/-- Messages the (optional) custom validation function attaches at a given
path, in call order. -/
def customMessagesAt (c : Option (JVal → List (List String × String)))
    (d : JVal) (p : List String) : List String :=
  match c with
  | none => []
  | some f => msgsAt (f d) p

theorem msgsAt_map_raw (l : List RawValidationError) (p : List String) :
    msgsAt (l.map (fun e => (e.path, e.message))) p
      = (l.filter (fun e => e.path = p)).map (fun e => e.message) := by
  rw [msgsAt, List.filterMap_map]
  exact filterMap_ite_eq_filter_map (fun e => e.path = p) (fun e => e.message) l

theorem errsAt_schemaErrorTree (d : JVal) (s : JSchema) (p : List String) :
    errsAt (schemaErrorTree d s) p = schemaMessagesAt d s p := by
  rw [schemaErrorTree, errsAt_applyAdds, errsAt_skeleton, msgsAt_map_raw, schemaMessagesAt]
  rfl

theorem errorSchema_validateFormData (d : JVal) (s : JSchema)
    (c : Option (JVal → List (List String × String)))
    (t : Option (List ErrEntry → List ErrEntry)) :
    (validateFormData d s c t).errorSchema =
      (match c with
       | none => schemaErrorTree d s
       | some f => applyAdds (schemaErrorTree d s) (f d)) := by
  cases c <;> rfl

/-- Master description of the message list at any path of the returned error
tree: first the schema validator's messages there, then the custom
additions there, both in emission order. -/
theorem errsAt_validateFormData (d : JVal) (s : JSchema)
    (c : Option (JVal → List (List String × String)))
    (t : Option (List ErrEntry → List ErrEntry)) (p : List String) :
    errsAt (validateFormData d s c t).errorSchema p
      = schemaMessagesAt d s p ++ customMessagesAt c d p := by
  rw [errorSchema_validateFormData]
  cases c with
  | none => simp [errsAt_schemaErrorTree, customMessagesAt]
  | some f => rw [errsAt_applyAdds, errsAt_schemaErrorTree, customMessagesAt]

theorem getNode?_validateFormData_isSome (d : JVal) (s : JSchema)
    (c : Option (JVal → List (List String × String)))
    (t : Option (List ErrEntry → List ErrEntry)) (p : List String)
    (h : hasPath d p = true) :
    (getNode? (validateFormData d s c t).errorSchema p).isSome := by
  rw [errorSchema_validateFormData]
  have hsk : (getNode? (schemaErrorTree d s) p).isSome :=
    getNode?_applyAdds_isSome _ _ _ (getNode?_skeleton_isSome p d h)
  cases c with
  | none => exact hsk
  | some f => exact getNode?_applyAdds_isSome _ _ _ hsk

/-! ### Claim theorems -/

/-- C1: for every call to `validateFormData(data, schema, customValidateFn?,
transformErrorsFn?)`, the returned errorSchema tree has the reserved
`__errors` message list present at the root and at every key present in
`data` (intermediate nodes and array indices included), and that list is
empty at every path where no error message was attached. -/
theorem c1_errorSchema_complete (d : JVal) (s : JSchema)
    (c : Option (JVal → List (List String × String)))
    (t : Option (List ErrEntry → List ErrEntry)) (p : List String) :
    (hasPath d p = true →
      (getNode? (validateFormData d s c t).errorSchema p).isSome = true)
    ∧ (schemaMessagesAt d s p = [] → customMessagesAt c d p = [] →
      errsAt (validateFormData d s c t).errorSchema p = []) := by
  constructor
  · intro h
    exact getNode?_validateFormData_isSome d s c t p h
  · intro h1 h2
    rw [errsAt_validateFormData, h1, h2]
    rfl

/-- Witness for C1 at a concrete nested input: the path a.0.b is present in
the data, so the error tree holds a node there, carrying an empty message
list since nothing was attached. -/
theorem c1_errorSchema_complete_witness :
    (getNode? (validateFormData (.obj [("a", .arr [.obj [("b", .str "x")]])])
        (.mk none [] [] none none) none none).errorSchema ["a", "0", "b"]).isSome = true
    ∧ errsAt (validateFormData (.obj [("a", .arr [.obj [("b", .str "x")]])])
        (.mk none [] [] none none) none none).errorSchema ["a", "0", "b"] = [] :=
  ⟨(c1_errorSchema_complete (.obj [("a", .arr [.obj [("b", .str "x")]])])
      (.mk none [] [] none none) none none ["a", "0", "b"]).1 rfl,
   (c1_errorSchema_complete (.obj [("a", .arr [.obj [("b", .str "x")]])])
      (.mk none [] [] none none) none none ["a", "0", "b"]).2 rfl rfl⟩

/-- C3: when both schema validation and a custom validator attach messages at
the same path, the errorSchema holds both at that path's message list without
overwriting, all schema-produced messages before all custom-validator
messages, each group in its own order.  (Stated for every path, whether
shared or not.) -/
theorem c3_schema_before_custom (d : JVal) (s : JSchema)
    (f : JVal → List (List String × String))
    (t : Option (List ErrEntry → List ErrEntry)) (p : List String) :
    errsAt (validateFormData d s (some f) t).errorSchema p
      = schemaMessagesAt d s p ++ msgsAt (f d) p :=
  errsAt_validateFormData d s (some f) t p

mutual

/-- Depth-first enumeration of the nodes of an error tree, pairing each node's
label (its own key; a given label for the root) with its message list, the
node itself first and then its children in order. -/
def dfsNodes : ErrorNode → String → List (String × List String)
  | .mk errs childs, label => (label, errs) :: dfsChildren childs
termination_by structural t _ => t

/-- Child traversal of `dfsNodes`. -/
def dfsChildren : List (String × ErrorNode) → List (String × List String)
  | [] => []
  | (k, c) :: rest => dfsNodes c k ++ dfsChildren rest
termination_by structural l => l

end

mutual

theorem toErrorListFrom_eq_dfs (t : ErrorNode) (label : String) :
    toErrorListFrom t label
      = (dfsNodes t label).flatMap
          (fun n => n.2.map (fun m => (⟨n.1 ++ ": " ++ m⟩ : FlatErrorEntry))) := by
  match t with
  | .mk errs childs =>
      rw [toErrorListFrom, dfsNodes, List.flatMap_cons, toErrorListChildren_eq_dfs childs]
termination_by structural t

theorem toErrorListChildren_eq_dfs (childs : List (String × ErrorNode)) :
    toErrorListChildren childs
      = (dfsChildren childs).flatMap
          (fun n => n.2.map (fun m => (⟨n.1 ++ ": " ++ m⟩ : FlatErrorEntry))) := by
  match childs with
  | [] => rfl
  | (k, c) :: rest =>
      rw [toErrorListChildren, dfsChildren, List.flatMap_append,
        toErrorListFrom_eq_dfs c k, toErrorListChildren_eq_dfs rest]
termination_by structural childs

end

/-- C2: for every ErrorNode tree `t`, `toErrorList(t)` returns exactly one
flat entry `label ++ ": " ++ message` per message across all nodes of `t`, in
depth-first node order with each node's messages emitted in list order; the
root node's label is the literal string "root" and every other node's label is
its own immediate key, not the full ancestor path. -/
theorem c2_toErrorList_flattening (t : ErrorNode) :
    toErrorList t
      = (dfsNodes t "root").flatMap
          (fun n => n.2.map (fun m => (⟨n.1 ++ ": " ++ m⟩ : FlatErrorEntry))) :=
  toErrorListFrom_eq_dfs t "root"

/-- C5: a property name containing characters unsafe as identifiers is
processed without failing and without silently dropping its errors: the key
appears verbatim in the error tree with its message, used as an opaque
mapping key.  Stated for every key other than the reserved `__errors` name
(which the tree representation sets apart), for a string schema fed a
number. -/
theorem c5_opaque_keys (k : String) (_h : k ≠ "__errors") :
    getNode? (validateFormData (.obj [(k, .num 41)])
        (.mk (some "object") [] [(k, .mk (some "string") [] [] none none)] none none)
        none none).errorSchema [k]
      = some (.mk ["is not of a type(s) string"] [])
    ∧ ((validateFormData (.obj [(k, .num 41)])
        (.mk (some "object") [] [(k, .mk (some "string") [] [] none none)] none none)
        none none).errors).map (fun e => e.message)
      = [some "is not of a type(s) string"] := by
  constructor
  · simp [validateFormData, schemaErrorTree, validate, validateAt, validateProps,
      typeErrs, minLenErrs, requiredErrs, typeMatches, isUndef, alook, skeleton,
      skelFields, applyAdds, addError, setKey, getNode?, JSchema.properties,
      JSchema.required, JSchema.ty, JSchema.items, JSchema.minLength]
  · simp [validateFormData, validate, validateAt, validateProps, typeErrs,
      minLenErrs, requiredErrs, typeMatches, isUndef, alook, applyTransform,
      rawToEntry, JSchema.properties, JSchema.required, JSchema.ty,
      JSchema.items, JSchema.minLength]

/-- Witness for C5 at the test suite's ill-formed key, full of quotes,
brackets, operators and punctuation. -/
theorem c5_opaque_keys_witness :
    getNode? (validateFormData (.obj [("bar.\"[]()=+*&^%$#@!", .num 41)])
        (.mk (some "object") []
          [("bar.\"[]()=+*&^%$#@!", .mk (some "string") [] [] none none)] none none)
        none none).errorSchema ["bar.\"[]()=+*&^%$#@!"]
      = some (.mk ["is not of a type(s) string"] [])
    ∧ ((validateFormData (.obj [("bar.\"[]()=+*&^%$#@!", .num 41)])
        (.mk (some "object") []
          [("bar.\"[]()=+*&^%$#@!", .mk (some "string") [] [] none none)] none none)
        none none).errors).map (fun e => e.message)
      = [some "is not of a type(s) string"] :=
  c5_opaque_keys "bar.\"[]()=+*&^%$#@!" (by decide)

/-- C6: a supplied transform function rewrites exactly the flat error list
derived without it, the error tree is unaffected by the transform, and with a
custom validator present the flat list is the flattening of the final tree;
with no transform the flat list passes through unchanged (it equals the
untransformed list by definition of the no-transform run). -/
theorem c6_transform_flat_only (d : JVal) (s : JSchema)
    (c : Option (JVal → List (List String × String)))
    (tf : List ErrEntry → List ErrEntry) :
    (validateFormData d s c (some tf)).errors = tf ((validateFormData d s c none).errors)
    ∧ (validateFormData d s c (some tf)).errorSchema = (validateFormData d s c none).errorSchema
    ∧ (∀ f, (validateFormData d s (some f) none).errors
        = (toErrorList (validateFormData d s (some f) none).errorSchema).map flatToEntry) := by
  refine ⟨?_, ?_, fun f => rfl⟩
  · cases c <;> rfl
  · cases c <;> rfl

/-- C7: with no custom validator the errors list carries exactly one entry per
schema violation (it is the raw validator output, entry for entry), and on the
two pinned scenarios it is exactly one error with the violated constraint's
rule text: a missing required property `foo`, and a string shorter than
minLength 10. -/
theorem c7_errors_match_violations :
    (∀ (d : JVal) (s : JSchema),
      (validateFormData d s none none).errors = (validate d s).map rawToEntry)
    ∧ (validateFormData (.obj [("foo", .undef)])
        (.mk (some "object") ["foo"]
          [("foo", .mk (some "string") [] [] none none),
           ("bar", .mk (some "string") [] [] none none)] none none) none none).errors
      = [⟨some "requires property \"foo\"", "instance: requires property \"foo\""⟩]
    ∧ (validateFormData (.obj [("foo", .str "123456789")])
        (.mk (some "object") ["foo"]
          [("foo", .mk (some "string") [] [] none (some 10))] none none) none none).errors
      = [⟨some "does not meet minimum length of 10",
          "instance.foo: does not meet minimum length of 10"⟩] :=
  ⟨fun _ _ => rfl, rfl, rfl⟩

/-- C9: if the custom validation function throws, the failure propagates
uncaught and the whole validation call aborts with it; no partial result is
produced. -/
theorem c9_custom_throw_propagates (d : JVal) (s : JSchema)
    (cv : JVal → Except String (List (List String × String)))
    (t : Option (List ErrEntry → List ErrEntry)) (e : String)
    (h : cv d = Except.error e) :
    validateFormDataT d s cv t = Except.error e := by
  simp [validateFormDataT, h]

/-- Witness for C9: a concrete custom validator that always throws makes the
whole call abort with the thrown value. -/
theorem c9_custom_throw_propagates_witness :
    validateFormDataT (.obj []) (.mk none [] [] none none)
      (fun _ => Except.error "boom") none = Except.error "boom" :=
  c9_custom_throw_propagates (.obj []) (.mk none [] [] none none)
    (fun _ => Except.error "boom") none "boom" rfl

/-! ### Empty-value filter lemmas -/

/-- Per-key retention decision of the filter: a key whose sub-schema carries a
usable `properties` mapping and whose value is an object is always retained
with its recursively filtered value; any other key is retained, unchanged,
exactly when it is required at this level or not empty. -/
def keepEntry (schema : JSchema) (k : String) (v : JVal) : Option (String × JVal) :=
  match alook (JSchema.properties schema) k, v with
  | some sub, .obj _ =>
      if (JSchema.properties sub).isEmpty then
        if k ∈ JSchema.required schema ∨ ¬ isEmptyVal v then some (k, v) else none
      else some (k, filterEmptyValues v sub)
  | _, _ =>
      if k ∈ JSchema.required schema ∨ ¬ isEmptyVal v then some (k, v) else none

/-- The field walker treats every key independently through `keepEntry`. -/
theorem filterFields_cons (k : String) (v : JVal) (rest : List (String × JVal)) (s : JSchema) :
    filterFields ((k, v) :: rest) s
      = (match keepEntry s k v with
         | some kv => kv :: filterFields rest s
         | none => filterFields rest s) := by
  cases hl : alook (JSchema.properties s) k with
  | none =>
      cases v <;> simp only [filterFields, keepEntry, hl] <;> split <;> rfl
  | some sub =>
      cases v <;> simp only [filterFields, keepEntry, hl] <;> split <;> try rfl
      split <;> rfl

theorem filterFields_eq_filterMap (fields : List (String × JVal)) (s : JSchema) :
    filterFields fields s = fields.filterMap (fun pr => keepEntry s pr.1 pr.2) := by
  induction fields with
  | nil => rfl
  | cons hd tl ih =>
      obtain ⟨k, v⟩ := hd
      rw [filterFields_cons, List.filterMap_cons]
      cases keepEntry s k v <;> simp [ih]

mutual

/-- A kept entry is kept unchanged when the filter runs a second time. -/
theorem keepEntry_second (s : JSchema) (k : String) (v : JVal) (k2 : String) (v2 : JVal)
    (h : keepEntry s k v = some (k2, v2)) :
    keepEntry s k2 v2 = some (k2, v2) := by
  cases hl : alook (JSchema.properties s) k with
  | none =>
      cases v <;>
        (simp only [keepEntry, hl] at h
         split at h
         next hcond =>
           simp only [Option.some.injEq, Prod.mk.injEq] at h
           obtain ⟨hk, hv⟩ := h
           subst hk
           subst hv
           simp only [keepEntry, hl]
           rw [if_pos hcond]
         next hcond => cases h)
  | some sub =>
      cases v with
      | obj fs =>
          simp only [keepEntry, hl] at h
          by_cases he : (JSchema.properties sub).isEmpty
          · rw [if_pos he] at h
            split at h
            next hcond =>
              simp only [Option.some.injEq, Prod.mk.injEq] at h
              obtain ⟨hk, hv⟩ := h
              subst hk
              subst hv
              simp only [keepEntry, hl]
              rw [if_pos he, if_pos hcond]
            next hcond => cases h
          · rw [if_neg he] at h
            simp only [Option.some.injEq, Prod.mk.injEq] at h
            obtain ⟨hk, hv⟩ := h
            subst hk
            rw [show filterEmptyValues (.obj fs) sub = .obj (filterFields fs sub) from rfl] at hv
            subst hv
            simp only [keepEntry, hl]
            rw [if_neg he,
              show filterEmptyValues (.obj (filterFields fs sub)) sub
                = .obj (filterFields (filterFields fs sub) sub) from rfl,
              filterFields_idem fs sub]
      | undef =>
          simp only [keepEntry, hl] at h
          split at h
          next hcond =>
            simp only [Option.some.injEq, Prod.mk.injEq] at h
            obtain ⟨hk, hv⟩ := h
            subst hk
            subst hv
            simp only [keepEntry, hl]
            rw [if_pos hcond]
          next hcond => cases h
      | null =>
          simp only [keepEntry, hl] at h
          split at h
          next hcond =>
            simp only [Option.some.injEq, Prod.mk.injEq] at h
            obtain ⟨hk, hv⟩ := h
            subst hk
            subst hv
            simp only [keepEntry, hl]
            rw [if_pos hcond]
          next hcond => cases h
      | bool b =>
          simp only [keepEntry, hl] at h
          split at h
          next hcond =>
            simp only [Option.some.injEq, Prod.mk.injEq] at h
            obtain ⟨hk, hv⟩ := h
            subst hk
            subst hv
            simp only [keepEntry, hl]
            rw [if_pos hcond]
          next hcond => cases h
      | num n =>
          simp only [keepEntry, hl] at h
          split at h
          next hcond =>
            simp only [Option.some.injEq, Prod.mk.injEq] at h
            obtain ⟨hk, hv⟩ := h
            subst hk
            subst hv
            simp only [keepEntry, hl]
            rw [if_pos hcond]
          next hcond => cases h
      | str st =>
          simp only [keepEntry, hl] at h
          split at h
          next hcond =>
            simp only [Option.some.injEq, Prod.mk.injEq] at h
            obtain ⟨hk, hv⟩ := h
            subst hk
            subst hv
            simp only [keepEntry, hl]
            rw [if_pos hcond]
          next hcond => cases h
      | arr xs =>
          simp only [keepEntry, hl] at h
          split at h
          next hcond =>
            simp only [Option.some.injEq, Prod.mk.injEq] at h
            obtain ⟨hk, hv⟩ := h
            subst hk
            subst hv
            simp only [keepEntry, hl]
            rw [if_pos hcond]
          next hcond => cases h
termination_by structural v

/-- Running the field walker twice is the same as running it once. -/
theorem filterFields_idem (fields : List (String × JVal)) (s : JSchema) :
    filterFields (filterFields fields s) s = filterFields fields s := by
  match fields with
  | [] => rfl
  | (k, v) :: rest =>
      rw [filterFields_cons]
      cases hk : keepEntry s k v with
      | none => exact filterFields_idem rest s
      | some kv =>
          obtain ⟨k2, v2⟩ := kv
          rw [filterFields_cons, keepEntry_second s k v k2 v2 hk,
            filterFields_idem rest s]
termination_by structural fields

end

/-- C8: `filterEmptyValues` is idempotent: filtering an already filtered data
object with the same schema changes nothing. -/
theorem c8_filter_idempotent (d : JVal) (s : JSchema) :
    filterEmptyValues (filterEmptyValues d s) s = filterEmptyValues d s := by
  cases d with
  | obj fields =>
      rw [show filterEmptyValues (.obj fields) s = .obj (filterFields fields s) from rfl,
        show filterEmptyValues (.obj (filterFields fields s)) s
          = .obj (filterFields (filterFields fields s) s) from rfl,
        filterFields_idem]
  | undef => rfl
  | null => rfl
  | bool b => rfl
  | num n => rfl
  | str st => rfl
  | arr xs => rfl

mutual

/-- Emptiness as the claim literally defines it: `undefined`, the empty
string, `null`, or recursively an object all of whose own fields are empty by
this same rule; arrays are opaque leaf values (the claim's own wording), so
they are never empty. -/
def specIsEmpty : JVal → Bool
  | .undef => true
  | .null => true
  | .str s => s = ""
  | .obj fields => specFieldsAllEmpty fields
  | _ => false
termination_by structural v => v

/-- All-fields-empty test of `specIsEmpty`. -/
def specFieldsAllEmpty : List (String × JVal) → Bool
  | [] => true
  | (_, v) :: rest => specIsEmpty v && specFieldsAllEmpty rest
termination_by structural l => l

end

/-- Data of the C4 counterexample: a single key `a` holding an object whose
only field `b` is the empty string; `b` is required one level down but `a` is
not required at the top level.  This is the shape of the repository's own
`geographicalRegion_other` filter test case. -/
def c4dat : JVal := .obj [("a", .obj [("b", .str "")])]

/-- Schema of the C4 counterexample. -/
def c4sch : JSchema :=
  .mk none [] [("a", .mk none ["b"] [("b", .mk (some "string") [] [] none none)] none none)]
    none none

/-- C4 fails on the code: the filter retains the key `a` even though `a` is
not listed in the schema's required sequence and its value is empty under the
claim's recursive emptiness rule, so retention is not equivalent to
"required or not empty".  The repository's own test (the
`geographicalRegion_other` case) pins this retention down. -/
theorem c4_claim_counterexample :
    (alook (jfields (filterEmptyValues c4dat c4sch)) "a").isSome = true
    ∧ ¬ ("a" ∈ JSchema.required c4sch ∨ specIsEmpty (.obj [("b", .str "")]) = false) := by
  refine ⟨rfl, ?_⟩
  intro hor
  cases hor with
  | inl hmem => simp [c4sch, JSchema.required] at hmem
  | inr hemp => simp [specIsEmpty, specFieldsAllEmpty, isEmptyVal] at hemp

/-- C4 (amended): `filterEmptyValues` decides every key of `data`
independently: a key whose sub-schema carries a non-empty `properties` mapping
and whose value is an object is always retained, with the value filtered
recursively against that sub-schema; any other key is retained, with its value
unchanged, if and only if it is listed in the schema's `required` sequence at
the current nesting level or its value is not empty, where empty means
`undefined`, `null`, or the empty string; arrays (and objects) are never empty
under this shallow test and arrays are treated as opaque leaf values. -/
theorem c4_amended_retention (fields : List (String × JVal)) (s : JSchema) :
    filterEmptyValues (.obj fields) s
      = .obj (fields.filterMap (fun pr => keepEntry s pr.1 pr.2)) := by
  rw [show filterEmptyValues (.obj fields) s = .obj (filterFields fields s) from rfl,
    filterFields_eq_filterMap]

/-- C10: a key holding an empty array is retained even when it is not
required: on the repository's multiple-uploads test input, the result still
contains `pressUploads` as an empty array. -/
theorem c10_empty_array_retained :
    filterEmptyValues (.obj [("pressUploads", .arr [])])
      (.mk (some "object") []
        [("pressUploads", .mk (some "array") [] []
          (some (.mk (some "object") []
            [("filename", .mk (some "string") [] [] none none),
             ("path", .mk (some "string") [] [] none none),
             ("id", .mk (some "string") [] [] none none)] none none)) none)]
        none none)
      = .obj [("pressUploads", .arr [])] := rfl

/-!
### Test-suite evaluations

Closed evaluations of the model on the repository's unit-test inputs,
certifying that the modelled definitions reproduce the behavior the test
suite expects.
-/

/-- Schema of the "No custom validate function" test, with its ill-formed
second property name. -/
def testSchema1 : JSchema :=
  .mk (some "object") []
    [("foo", .mk (some "string") [] [] none none),
     ("bar.\"[]()=+*&^%$#@!", .mk (some "string") [] [] none none)] none none

/-- Data of the "No custom validate function" test. -/
def testData1 : JVal := .obj [("foo", .num 42), ("bar.\"[]()=+*&^%$#@!", .num 41)]

example :
    ((validateFormData testData1 testSchema1 none none).errors).map (fun e => e.message)
      = [some "is not of a type(s) string", some "is not of a type(s) string"] := rfl

example :
    errsAt (validateFormData testData1 testSchema1 none none).errorSchema ["foo"]
      = ["is not of a type(s) string"] := rfl

example :
    errsAt (validateFormData testData1 testSchema1 none none).errorSchema
      ["bar.\"[]()=+*&^%$#@!"] = ["is not of a type(s) string"] := rfl

/-- Schema of the "Custom validate function" test. -/
def testSchema2 : JSchema :=
  .mk (some "object") ["pass1", "pass2"]
    [("pass1", .mk (some "string") [] [] none none),
     ("pass2", .mk (some "string") [] [] none none)] none none

example :
    (validateFormData (.obj [("pass1", .str "a"), ("pass2", .str "b")]) testSchema2
        (some (fun _ => [(["pass2"], "passwords mismatch.")])) none).errors
      = [⟨none, "pass2: passwords mismatch."⟩] := rfl

example :
    errsAt (validateFormData (.obj [("pass1", .str "a"), ("pass2", .str "b")]) testSchema2
        (some (fun _ => [(["pass2"], "passwords mismatch.")])) none).errorSchema ["pass2"]
      = ["passwords mismatch."] := rfl

example :
    toErrorList (.mk ["err1", "err2"]
        [("a", .mk [] [("b", .mk ["err3", "err4"] [])]), ("c", .mk ["err5"] [])])
      = [⟨"root: err1"⟩, ⟨"root: err2"⟩, ⟨"b: err3"⟩, ⟨"b: err4"⟩, ⟨"c: err5"⟩] := rfl

/-- Schema of the "validate a simple object" test: two strings with minLength
three. -/
def testSchema3 : JSchema :=
  .mk (some "object") []
    [("pass1", .mk (some "string") [] [] none (some 3)),
     ("pass2", .mk (some "string") [] [] none (some 3))] none none

example :
    (validateFormData (.obj [("pass1", .str "aaa"), ("pass2", .str "b")]) testSchema3
        (some (fun _ => [(["pass2"], "Passwords mismatch")])) none).errorSchema
      = .mk [] [("pass1", .mk [] []),
                ("pass2", .mk ["does not meet minimum length of 3", "Passwords mismatch"] [])] :=
  rfl

/-- Schema of the "validate an array of object" test. -/
def testSchema4 : JSchema :=
  .mk (some "array") [] []
    (some (.mk (some "object") []
      [("pass1", .mk (some "string") [] [] none none),
       ("pass2", .mk (some "string") [] [] none none)] none none)) none

example :
    (validateFormData
        (.arr [.obj [("pass1", .str "a"), ("pass2", .str "b")],
               .obj [("pass1", .str "a"), ("pass2", .str "a")]])
        testSchema4 (some (fun _ => [(["0", "pass2"], "Passwords mismatch")])) none).errorSchema
      = .mk []
          [("0", .mk [] [("pass1", .mk [] []), ("pass2", .mk ["Passwords mismatch"] [])]),
           ("1", .mk [] [("pass1", .mk [] []), ("pass2", .mk [] [])])] := rfl

example :
    (validateFormData (.arr [.str "aaa", .str "bbb", .str "ccc"])
        (.mk (some "array") [] [] (some (.mk (some "string") [] [] none none)) none)
        (some (fun _ => [([], "Forbidden value: bbb")])) none).errorSchema
      = .mk ["Forbidden value: bbb"]
          [("0", .mk [] []), ("1", .mk [] []), ("2", .mk [] [])] := rfl

example :
    filterEmptyValues
        (.obj [("emailAddress", .str ""), ("noName", .bool false), ("address2", .str ""),
               ("acceptTerms", .bool false)])
        (.mk (some "object") ["emailAddress", "acceptTerms"]
          [("emailAddress", .mk (some "string") [] [] none none),
           ("address2", .mk (some "string") [] [] none none)] none none)
      = .obj [("emailAddress", .str ""), ("noName", .bool false),
              ("acceptTerms", .bool false)] := rfl

example :
    filterEmptyValues (.obj [("a", .obj [("b", .str "")])])
        (.mk none []
          [("a", .mk none ["b"] [("b", .mk (some "string") [] [] none none)] none none)]
          none none)
      = .obj [("a", .obj [("b", .str "")])] := rfl

end Validate
